import Mathlib

/-!
Verification of the Schelling segregation model (`main.py`).

The model is embedded shallowly: the grid is a list of rows of cells, a
cell is `Option AgentType` (`none` = vacant), and the rational fields
stand for the Python floats.  Randomness (`random.choice` inside
`relocate_agent`, and the shuffled placement in grid initialisation) is
made explicit: `relocate_agent` takes the random index as a parameter,
and grid initialisation takes the already-shuffled list, which theorems
constrain to be a permutation of the unshuffled one.
-/

namespace Schelling

/-- The two agent categories, `'R'` (red) and `'B'` (blue) in the source. -/
inductive AgentType
  | R
  | B
deriving DecidableEq

/-- A grid cell: `none` models a vacant cell (`None`), `some t` an `Agent` of type `t`. -/
abbrev Cell := Option AgentType

/-- The city grid, `height` rows of `width` cells (the numpy array `self.grid`). -/
abbrev Grid := List (List Cell)

/-- Reading `grid[i, j]`; out-of-range reads yield `none` (never exercised in range). -/
def getCell (g : Grid) (i j : Nat) : Cell :=
  (g[i]?.bind fun row => row[j]?).join

/-- Writing `grid[i, j] = v`; out-of-range writes are dropped (never exercised in range). -/
def setCell (g : Grid) (i j : Nat) (v : Cell) : Grid :=
  match g[i]? with
  | some row => g.set i (row.set j v)
  | none => g

/-- The state of the `City` object: configuration, grid and the `moved_agents` set. -/
structure City where
  width : Nat
  height : Nat
  occupation_percentage : ℚ
  discr_attr_percentage : ℚ
  discrimination_rate : ℚ
  grid : Grid
  moved_agents : Finset (Nat × Nat)
deriving DecidableEq

/-- Grid shape consistency: `self.grid` really is `height × width`. -/
def City.Wf (c : City) : Prop :=
  c.grid.length = c.height ∧ ∀ row ∈ c.grid, row.length = c.width

instance (c : City) : Decidable c.Wf := by
  unfold City.Wf
  infer_instance

/-- The eight neighbour offsets, in source order (cardinal, then diagonal). -/
def directions : List (Int × Int) :=
  [(-1, 0), (1, 0), (0, -1), (0, 1), (-1, -1), (-1, 1), (1, -1), (1, 1)]

/-- `City.get_neighbors`: the up-to-8 in-bounds neighbouring cells of `(x, y)`. -/
def City.get_neighbors (c : City) (x y : Nat) : List Cell :=
  directions.filterMap fun d =>
    let nx : Int := (x : Int) + d.1
    let ny : Int := (y : Int) + d.2
    if 0 ≤ nx ∧ nx < (c.height : Int) ∧ 0 ≤ ny ∧ ny < (c.width : Int) then
      some (getCell c.grid nx.toNat ny.toNat)
    else
      none

/-- `City.is_happy`: vacant cells are happy; an agent with no occupied neighbours is
happy; otherwise happy iff `similar / total ≥ discrimination_rate`. -/
def City.is_happy (c : City) (x y : Nat) : Bool :=
  match getCell c.grid x y with
  | none => true
  | some agent =>
    let neighbors := c.get_neighbors x y
    let similar := (neighbors.filter fun n => n == some agent).length
    let total := (neighbors.filter fun n => n.isSome).length
    if total = 0 then true
    else decide (c.discrimination_rate ≤ (similar : ℚ) / (total : ℚ))

/-- Row-major list of all coordinates of a `height × width` grid, as produced by the
nested `for i ... for j ...` comprehensions of the source. -/
def cellCoords (height width : Nat) : List (Nat × Nat) :=
  (List.range height).product (List.range width)

/-- The list comprehension of vacant cells inside `City.relocate_agent`. -/
def City.vacant_cells (c : City) : List (Nat × Nat) :=
  (cellCoords c.height c.width).filter fun p => (getCell c.grid p.1 p.2).isNone

/-- `City.relocate_agent`: if a vacant cell exists, record `(x, y)` in `moved_agents`,
copy the occupant of `(x, y)` into the chosen vacant cell and vacate `(x, y)`;
otherwise do nothing.  `k` stands for the `random.choice` pick. -/
def City.relocate_agent (c : City) (x y : Nat) (k : Nat) : City :=
  let vacant := c.vacant_cells
  if h : vacant = [] then c
  else
    let dest := vacant.get ⟨k % vacant.length, Nat.mod_lt _ (List.length_pos.mpr h)⟩
    { c with
      moved_agents := insert (x, y) c.moved_agents
      grid := setCell (setCell c.grid dest.1 dest.2 (getCell c.grid x y)) x y none }

/-- Coordinates of occupied cells, scanned in row-major order. -/
def City.occupiedCoords (c : City) : List (Nat × Nat) :=
  (cellCoords c.height c.width).filter fun p => (getCell c.grid p.1 p.2).isSome

/-- Occupied coordinates whose agent is happy. -/
def City.happyCoords (c : City) : List (Nat × Nat) :=
  c.occupiedCoords.filter fun p => c.is_happy p.1 p.2

/-- `City.calculate_segregation`: the ratio of happy agents to agents, `1` when the
grid holds no agents. -/
def City.calculate_segregation (c : City) : ℚ :=
  if 0 < c.occupiedCoords.length then
    (c.happyCoords.length : ℚ) / (c.occupiedCoords.length : ℚ)
  else 1

/-- The snapshot list of unhappy agents computed at the top of each simulation
iteration: occupied cells whose agent is not happy, in row-major scan order. -/
def City.unhappy_agents (c : City) : List (Nat × Nat) :=
  (cellCoords c.height c.width).filter fun p =>
    (getCell c.grid p.1 p.2).isSome && !(c.is_happy p.1 p.2)

/-- The relocation loop `for x, y in unhappy_agents: self.relocate_agent(x, y)`,
with `f i` standing for the random pick of the `i`-th relocation. -/
def relocate_list : City → List (Nat × Nat) → (Nat → Nat) → Nat → City
  | c, [], _, _ => c
  | c, p :: ps, f, i => relocate_list (c.relocate_agent p.1 p.2 (f i)) ps f (i + 1)

/-- One iteration body of `run_simulation`: snapshot the unhappy agents, then
relocate each of them. -/
def City.sweep (c : City) (f : Nat → Nat) : City :=
  relocate_list c c.unhappy_agents f 0

/-- The grid state just before the `i`-th relocation of a sweep is performed. -/
def City.sweepUpTo (c : City) (f : Nat → Nat) (i : Nat) : City :=
  relocate_list c (c.unhappy_agents.take i) f 0

/-- States of the simulation loop: still looping, stopped because no agent was
unhappy, or stopped because the iteration budget ran out. -/
inductive SimState
  | Running
  | Converged
  | BudgetExhausted
deriving DecidableEq

/-- The loop of `City.run_simulation`, with `fuel` remaining iterations; returns the
final city, the terminal state, and the number of sweeps performed.  `F iter`
supplies the random picks of iteration `iter`. -/
def run_sim_aux : Nat → City → (Nat → Nat → Nat) → Nat → City × SimState × Nat
  | 0, c, _, _ => (c, SimState.BudgetExhausted, 0)
  | fuel + 1, c, F, iter =>
    if c.unhappy_agents = [] then (c, SimState.Converged, 0)
    else
      let r := run_sim_aux fuel (c.sweep (F iter)) F (iter + 1)
      (r.1, r.2.1, r.2.2 + 1)

/-- `City.run_simulation max_iterations`, starting at iteration `0`. -/
def run_simulation (c : City) (max_iterations : Nat) (F : Nat → Nat → Nat) :
    City × SimState × Nat :=
  run_sim_aux max_iterations c F 0

/-- The multiset of agents and vacancies built by `City.initialize_grid` before
shuffling: `red_agents` red, `blue_agents` blue, `vacant_cells` empty markers,
with the counts truncated (`int(...)`) exactly as in the source. -/
def baseAgentList (width height : Nat) (occ split : ℚ) : List Cell :=
  let total_cells := width * height
  let occupied_cells := (⌊(total_cells : ℚ) * occ⌋).toNat
  let red_agents := (⌊(occupied_cells : ℚ) * split⌋).toNat
  let blue_agents := occupied_cells - red_agents
  let vacant_cells := total_cells - occupied_cells
  List.replicate red_agents (some AgentType.R) ++
    List.replicate blue_agents (some AgentType.B) ++
    List.replicate vacant_cells none

/-- Filling one grid row of `n` cells by repeatedly `pop()`-ing the last element of
the shuffled list; fails (as `agents.pop()` would) if the list runs out. -/
def fillCells : Nat → List Cell → Option (List Cell × List Cell)
  | 0, agents => some ([], agents)
  | n + 1, agents =>
    match agents.getLast? with
    | none => none
    | some a =>
      match fillCells n agents.dropLast with
      | none => none
      | some (row, rest) => some (a :: row, rest)

/-- Filling `h` rows of `w` cells each, top row first, popping from the shuffled
list as `City.initialize_grid` does. -/
def fillRows : Nat → Nat → List Cell → Option (List (List Cell) × List Cell)
  | 0, _, agents => some ([], agents)
  | h + 1, w, agents =>
    match fillCells w agents with
    | none => none
    | some (row, rest) =>
      match fillRows h w rest with
      | none => none
      | some (rows, rest2) => some (row :: rows, rest2)

/-- The grid built by `City.initialize_grid` from the already-shuffled list. -/
def init_grid (width height : Nat) (shuffled : List Cell) : Option Grid :=
  (fillRows height width shuffled).map fun r => r.1

/-- Count of cells equal to `v` over the whole grid. -/
def countCell (g : Grid) (v : Cell) : Nat :=
  g.flatten.count v

/-- A 1×4 city holding one red and one blue agent, used to exercise a run in which
both agents are relocated twice. -/
def cityTwoMoves : City :=
  { width := 4, height := 1, occupation_percentage := 1/2,
    discr_attr_percentage := 1/2, discrimination_rate := 3/5,
    grid := [[some AgentType.R, some AgentType.B, none, none]],
    moved_agents := {} }

/-- Random picks driving `cityTwoMoves` so that each agent moves in both sweeps. -/
def picksTwoMoves : Nat → Nat → Nat :=
  fun iter i => if iter = 0 then i else 1 - i

/-- A fully occupied 1×1 city: no vacant cell exists. -/
def cityFull : City :=
  { width := 1, height := 1, occupation_percentage := 1,
    discr_attr_percentage := 1, discrimination_rate := 1/2,
    grid := [[some AgentType.R]],
    moved_agents := {} }

/-- A 1×3 city with a red agent, a blue agent and one vacant cell. -/
def citySmall : City :=
  { width := 3, height := 1, occupation_percentage := 2/3,
    discr_attr_percentage := 1/2, discrimination_rate := 3/5,
    grid := [[some AgentType.R, some AgentType.B, none]],
    moved_agents := {} }

end Schelling

namespace Schelling

/-! ### Cell access and update -/

theorem set_self_of_getElem? {α : Type} :
    ∀ (l : List α) (i : Nat) (v : α), l[i]? = some v → l.set i v = l
  | [], _, _, h => by simp at h
  | a :: l, 0, v, h => by
      simp only [List.getElem?_cons_zero, Option.some.injEq] at h
      simp [h]
  | a :: l, i + 1, v, h => by
      simp only [List.getElem?_cons_succ] at h
      simpa using congrArg (a :: ·) (set_self_of_getElem? l i v h)

theorem getCell_of_getElem? {g : Grid} {i j : Nat} {row : List Cell}
    (hrow : g[i]? = some row) (hj : j < row.length) :
    row[j]? = some (getCell g i j) := by
  unfold getCell
  rw [hrow]
  simp [List.getElem?_eq_getElem hj]

theorem getCell_setCell_ne {g : Grid} {i j i' j' : Nat} {v : Cell}
    (h : (i', j') ≠ (i, j)) : getCell (setCell g i j v) i' j' = getCell g i' j' := by
  unfold setCell
  cases hrow : g[i]? with
  | none => rfl
  | some row =>
    have hi : i < g.length := (List.getElem?_eq_some.mp hrow).1
    unfold getCell
    rw [List.getElem?_set]
    by_cases hii : i = i'
    · have hjj : j ≠ j' := by
        intro hj
        exact h (by rw [hii, hj])
      rw [if_pos hii, if_pos hi, ← hii, hrow]
      simp only [Option.some_bind]
      rw [List.getElem?_set, if_neg hjj]
    · rw [if_neg hii]

theorem getCell_setCell_self {g : Grid} {i j : Nat} {row : List Cell} {v : Cell}
    (hrow : g[i]? = some row) (hj : j < row.length) :
    getCell (setCell g i j v) i j = v := by
  unfold setCell
  rw [hrow]
  have hi : i < g.length := (List.getElem?_eq_some.mp hrow).1
  unfold getCell
  rw [List.getElem?_set, if_pos rfl, if_pos hi]
  simp [List.getElem?_set, hj]

theorem setCell_self {g : Grid} {i j : Nat} {row : List Cell} {v : Cell}
    (hrow : g[i]? = some row) (hj : j < row.length) (hv : getCell g i j = v) :
    setCell g i j v = g := by
  have h1 : row[j]? = some v := by rw [← hv]; exact getCell_of_getElem? hrow hj
  unfold setCell
  rw [hrow]
  show g.set i (row.set j v) = g
  rw [set_self_of_getElem? row j v h1]
  exact set_self_of_getElem? g i row hrow

theorem length_setCell (g : Grid) (i j : Nat) (v : Cell) :
    (setCell g i j v).length = g.length := by
  unfold setCell
  cases g[i]? <;> simp

theorem mem_setCell {g : Grid} {i j : Nat} {v : Cell} {row : List Cell}
    (h : row ∈ setCell g i j v) : row ∈ g ∨ ∃ r ∈ g, row = r.set j v := by
  unfold setCell at h
  cases hrow : g[i]? with
  | none => rw [hrow] at h; exact Or.inl h
  | some r =>
    rw [hrow] at h
    rcases List.mem_or_eq_of_mem_set h with h1 | h1
    · exact Or.inl h1
    · have hi : i < g.length := (List.getElem?_eq_some.mp hrow).1
      have hr : r ∈ g := (List.getElem?_eq_some.mp hrow).2 ▸ List.getElem_mem hi
      exact Or.inr ⟨r, hr, h1⟩

theorem Wf_setCell {c : City} {i j : Nat} {v : Cell} (hwf : c.Wf) :
    City.Wf { c with grid := setCell c.grid i j v } := by
  obtain ⟨h1, h2⟩ := hwf
  refine ⟨by simpa [length_setCell] using h1, ?_⟩
  intro row hrow
  simp only at hrow
  rcases mem_setCell hrow with h | ⟨r, hr, rfl⟩
  · exact h2 row h
  · simpa using h2 r hr

theorem City.Wf.row {c : City} (hwf : c.Wf) {x : Nat} (hx : x < c.height) :
    ∃ row, c.grid[x]? = some row ∧ row.length = c.width := by
  have hx' : x < c.grid.length := by rw [hwf.1]; exact hx
  exact ⟨c.grid[x], List.getElem?_eq_getElem hx', hwf.2 _ (List.getElem_mem hx')⟩

/-! ### Coordinate scans -/

theorem mem_cellCoords {height width : Nat} {p : Nat × Nat} :
    p ∈ cellCoords height width ↔ p.1 < height ∧ p.2 < width := by
  obtain ⟨a, b⟩ := p
  unfold cellCoords
  rw [List.pair_mem_product]
  simp [List.mem_range]

theorem nodup_cellCoords (height width : Nat) : (cellCoords height width).Nodup :=
  List.Nodup.product (List.nodup_range height) (List.nodup_range width)

theorem mem_vacant_cells {c : City} {p : Nat × Nat} :
    p ∈ c.vacant_cells ↔ p.1 < c.height ∧ p.2 < c.width ∧ getCell c.grid p.1 p.2 = none := by
  unfold City.vacant_cells
  rw [List.mem_filter, mem_cellCoords, Option.isNone_iff_eq_none]
  tauto

theorem mem_unhappy_agents {c : City} {p : Nat × Nat} :
    p ∈ c.unhappy_agents ↔
      p.1 < c.height ∧ p.2 < c.width ∧
        (getCell c.grid p.1 p.2).isSome = true ∧ c.is_happy p.1 p.2 = false := by
  unfold City.unhappy_agents
  rw [List.mem_filter, mem_cellCoords]
  simp only [Bool.and_eq_true, Bool.not_eq_true']
  tauto

theorem mem_occupiedCoords {c : City} {p : Nat × Nat} :
    p ∈ c.occupiedCoords ↔
      p.1 < c.height ∧ p.2 < c.width ∧ (getCell c.grid p.1 p.2).isSome = true := by
  unfold City.occupiedCoords
  rw [List.mem_filter, mem_cellCoords]
  tauto

theorem nodup_unhappy_agents (c : City) : c.unhappy_agents.Nodup :=
  (nodup_cellCoords _ _).filter _

/-! ### Relocation -/

theorem relocate_agent_of_nil {c : City} {x y k : Nat} (h : c.vacant_cells = []) :
    c.relocate_agent x y k = c := by
  unfold City.relocate_agent
  rw [dif_pos h]

theorem relocate_agent_spec {c : City} (x y k : Nat) (h : c.vacant_cells ≠ []) :
    ∃ d ∈ c.vacant_cells,
      c.relocate_agent x y k =
        { c with
          moved_agents := insert (x, y) c.moved_agents
          grid := setCell (setCell c.grid d.1 d.2 (getCell c.grid x y)) x y none } := by
  unfold City.relocate_agent
  rw [dif_neg h]
  exact ⟨_, List.get_mem _ _ _, rfl⟩

theorem relocate_agent_fields (c : City) (x y k : Nat) :
    (c.relocate_agent x y k).width = c.width ∧
      (c.relocate_agent x y k).height = c.height ∧
      (c.relocate_agent x y k).discrimination_rate = c.discrimination_rate := by
  by_cases h : c.vacant_cells = []
  · rw [relocate_agent_of_nil h]
    exact ⟨rfl, rfl, rfl⟩
  · obtain ⟨d, _, heq⟩ := relocate_agent_spec x y k h
    rw [heq]
    exact ⟨rfl, rfl, rfl⟩

end Schelling

namespace Schelling

/-! ### Counting cells across updates -/

theorem count_set {row : List Cell} {j : Nat} (hj : j < row.length) (v a : Cell) :
    (row.set j v).count a + (if row[j] = a then 1 else 0) =
      row.count a + (if v = a then 1 else 0) := by
  have hsplit : row = row.take j ++ row[j] :: row.drop (j + 1) := by
    conv_lhs => rw [← List.take_append_drop j row, List.drop_eq_getElem_cons hj]
  rw [List.set_eq_take_cons_drop _ hj]
  conv_rhs => rw [hsplit]
  simp only [List.count_append, List.count_cons, beq_iff_eq]
  split_ifs <;> omega

theorem count_flatten_set {g : Grid} {i : Nat} {row r' : List Cell}
    (hrow : g[i]? = some row) (a : Cell) :
    (g.set i r').flatten.count a + row.count a = g.flatten.count a + r'.count a := by
  have hi : i < g.length := (List.getElem?_eq_some.mp hrow).1
  have hgi : g[i] = row := (List.getElem?_eq_some.mp hrow).2
  have hsplit : g = g.take i ++ row :: g.drop (i + 1) := by
    conv_lhs => rw [← List.take_append_drop i g, List.drop_eq_getElem_cons hi, hgi]
  rw [List.set_eq_take_cons_drop _ hi]
  conv_rhs => rw [hsplit]
  simp only [List.flatten_append, List.flatten_cons, List.count_append]
  omega

theorem getCell_eq_getElem {g : Grid} {i j : Nat} {row : List Cell}
    (hrow : g[i]? = some row) (hj : j < row.length) : getCell g i j = row[j] := by
  have h := getCell_of_getElem? hrow hj
  rw [List.getElem?_eq_getElem hj] at h
  exact (Option.some_inj.mp h).symm

theorem count_flatten_setCell {g : Grid} {i j : Nat} {row : List Cell} {v : Cell}
    (hrow : g[i]? = some row) (hj : j < row.length) (a : Cell) :
    (setCell g i j v).flatten.count a + (if getCell g i j = a then 1 else 0) =
      g.flatten.count a + (if v = a then 1 else 0) := by
  unfold setCell
  rw [hrow]
  show (g.set i (row.set j v)).flatten.count a + _ = _
  have h1 := @count_flatten_set g i row (row.set j v) hrow a
  have h2 := count_set hj v a
  rw [getCell_eq_getElem hrow hj]
  split_ifs at h2 ⊢ <;> omega

theorem wf_grid_setCell {g : Grid} {H W : Nat} (i j : Nat) (v : Cell)
    (h1 : g.length = H) (h2 : ∀ row ∈ g, row.length = W) :
    (setCell g i j v).length = H ∧ ∀ row ∈ setCell g i j v, row.length = W := by
  refine ⟨by rw [length_setCell]; exact h1, ?_⟩
  intro row hrow
  rcases mem_setCell hrow with h | ⟨r, hr, rfl⟩
  · exact h2 row h
  · simpa using h2 r hr

theorem count_bridge [inst : DecidableEq Cell] (a : Cell) (l : List Cell) :
    @List.count Cell (@instBEqOfDecidableEq Cell inst) a l = l.count a := by
  refine List.countP_congr ?_
  intro b _
  show decide (b = a) = true ↔ (b == a) = true
  by_cases h : b = a <;> simp [h]

theorem perm_of_count_eq {l₁ l₂ : List Cell} (h : ∀ a : Cell, l₁.count a = l₂.count a) :
    l₁.Perm l₂ := by
  rw [List.perm_iff_count]
  intro a
  rw [count_bridge, count_bridge]
  exact h a

theorem perm_count_cell {l₁ l₂ : List Cell} (hp : l₁.Perm l₂) (a : Cell) :
    l₁.count a = l₂.count a := by
  have h := hp.count_eq a
  rwa [count_bridge, count_bridge] at h

theorem relocate_agent_wf {c : City} (x y k : Nat) (hwf : c.Wf) :
    (c.relocate_agent x y k).Wf := by
  by_cases h : c.vacant_cells = []
  · rw [relocate_agent_of_nil h]; exact hwf
  · obtain ⟨d, _, heq⟩ := relocate_agent_spec x y k h
    rw [heq]
    have s1 := wf_grid_setCell d.1 d.2 (getCell c.grid x y) hwf.1 hwf.2
    exact wf_grid_setCell x y none s1.1 s1.2

theorem relocate_agent_perm {c : City} {x y : Nat} (k : Nat) (hwf : c.Wf)
    (hx : x < c.height) (hy : y < c.width) :
    (c.relocate_agent x y k).grid.flatten.Perm c.grid.flatten := by
  by_cases h : c.vacant_cells = []
  · rw [relocate_agent_of_nil h]
  · obtain ⟨d, hd, heq⟩ := relocate_agent_spec x y k h
    obtain ⟨hd1, hd2, hdnone⟩ := mem_vacant_cells.mp hd
    obtain ⟨rowd, hrowd, hrowdlen⟩ := hwf.row hd1
    obtain ⟨rowx, hrowx, hrowxlen⟩ := hwf.row hx
    have hdj : d.2 < rowd.length := by rw [hrowdlen]; exact hd2
    have hxj : y < rowx.length := by rw [hrowxlen]; exact hy
    rw [heq]
    simp only
    by_cases hdx : (x, y) = d
    · have hxynone : getCell c.grid x y = none := by
        rw [show x = d.1 from congrArg Prod.fst hdx, show y = d.2 from congrArg Prod.snd hdx]
        exact hdnone
      have e1 : setCell c.grid d.1 d.2 (getCell c.grid x y) = c.grid := by
        refine setCell_self hrowd hdj ?_
        rw [hxynone, hdnone]
      rw [e1, setCell_self hrowx hxj hxynone]
    · refine perm_of_count_eq fun a => ?_
      have h1 := count_flatten_setCell (v := getCell c.grid x y) hrowd hdj a
      rw [hdnone] at h1
      have hwf1 : (setCell c.grid d.1 d.2 (getCell c.grid x y)).length = c.height ∧
          ∀ row ∈ setCell c.grid d.1 d.2 (getCell c.grid x y), row.length = c.width :=
        wf_grid_setCell d.1 d.2 (getCell c.grid x y) hwf.1 hwf.2
      have hx1 : x < (setCell c.grid d.1 d.2 (getCell c.grid x y)).length := by
        rw [hwf1.1]; exact hx
      obtain ⟨rowx1, hrowx1, hrowx1len⟩ :
          ∃ row, (setCell c.grid d.1 d.2 (getCell c.grid x y))[x]? = some row ∧
            row.length = c.width :=
        ⟨_, List.getElem?_eq_getElem hx1, hwf1.2 _ (List.getElem_mem hx1)⟩
      have hxj1 : y < rowx1.length := by rw [hrowx1len]; exact hy
      have h2 := count_flatten_setCell (v := (none : Cell)) hrowx1 hxj1 a
      have hmid : getCell (setCell c.grid d.1 d.2 (getCell c.grid x y)) x y =
          getCell c.grid x y := by
        refine getCell_setCell_ne ?_
        intro hc
        exact hdx (by rw [hc])
      rw [hmid] at h2
      split_ifs at h1 h2 <;> omega

end Schelling

namespace Schelling

/-! ### Frame properties of relocation -/

theorem relocate_agent_frame {c : City} {x y k : Nat} {p : Nat × Nat} {a : AgentType}
    (hp : getCell c.grid p.1 p.2 = some a) (hne : p ≠ (x, y)) :
    getCell (c.relocate_agent x y k).grid p.1 p.2 = some a := by
  by_cases h : c.vacant_cells = []
  · rw [relocate_agent_of_nil h]; exact hp
  · obtain ⟨d, hd, heq⟩ := relocate_agent_spec x y k h
    obtain ⟨hd1, hd2, hdnone⟩ := mem_vacant_cells.mp hd
    have h2 : (p.1, p.2) ≠ (d.1, d.2) := by
      intro hc
      have hpd : p = d := by
        obtain ⟨p1, p2⟩ := p
        obtain ⟨d1, d2⟩ := d
        simpa using hc
      rw [hpd, hdnone] at hp
      exact Option.noConfusion hp
    rw [heq]
    simp only
    rw [getCell_setCell_ne hne, getCell_setCell_ne h2]
    exact hp

theorem relocate_agent_source_vacant {c : City} {x y : Nat} (k : Nat) (hwf : c.Wf)
    (hx : x < c.height) (hy : y < c.width) (h : c.vacant_cells ≠ []) :
    getCell (c.relocate_agent x y k).grid x y = none := by
  obtain ⟨d, hd, heq⟩ := relocate_agent_spec x y k h
  rw [heq]
  simp only
  have s1 := wf_grid_setCell d.1 d.2 (getCell c.grid x y) hwf.1 hwf.2
  have hx1 : x < (setCell c.grid d.1 d.2 (getCell c.grid x y)).length := by
    rw [s1.1]; exact hx
  obtain ⟨row, hrow, hrowlen⟩ :
      ∃ row, (setCell c.grid d.1 d.2 (getCell c.grid x y))[x]? = some row ∧
        row.length = c.width :=
    ⟨_, List.getElem?_eq_getElem hx1, s1.2 _ (List.getElem_mem hx1)⟩
  exact getCell_setCell_self hrow (by rw [hrowlen]; exact hy)

theorem relocate_agent_vacant_ne_nil {c : City} {x y : Nat} (k : Nat) (hwf : c.Wf)
    (hx : x < c.height) (hy : y < c.width) (h : c.vacant_cells ≠ []) :
    (c.relocate_agent x y k).vacant_cells ≠ [] := by
  have hfields := relocate_agent_fields c x y k
  refine List.ne_nil_of_mem (a := (x, y)) ?_
  rw [mem_vacant_cells]
  refine ⟨?_, ?_, relocate_agent_source_vacant k hwf hx hy h⟩
  · rw [hfields.2.1]; exact hx
  · rw [hfields.1]; exact hy

/-! ### The per-sweep relocation loop -/

theorem relocate_list_fields :
    ∀ (l : List (Nat × Nat)) (c : City) (f : Nat → Nat) (i : Nat),
      (relocate_list c l f i).width = c.width ∧
        (relocate_list c l f i).height = c.height ∧
        (relocate_list c l f i).discrimination_rate = c.discrimination_rate
  | [], _, _, _ => ⟨rfl, rfl, rfl⟩
  | p :: ps, c, f, i => by
    simp only [relocate_list]
    have h1 := relocate_agent_fields c p.1 p.2 (f i)
    have h2 := relocate_list_fields ps (c.relocate_agent p.1 p.2 (f i)) f (i + 1)
    exact ⟨h2.1.trans h1.1, h2.2.1.trans h1.2.1, h2.2.2.trans h1.2.2⟩

theorem relocate_list_untouched {q : Nat × Nat} {a : AgentType} :
    ∀ (l : List (Nat × Nat)) (c : City) (f : Nat → Nat) (i : Nat),
      getCell c.grid q.1 q.2 = some a → q ∉ l →
      getCell (relocate_list c l f i).grid q.1 q.2 = some a
  | [], _, _, _, hq, _ => hq
  | p :: ps, c, f, i, hq, hql => by
    simp only [relocate_list]
    have hne : q ≠ p := fun h => hql (h ▸ List.mem_cons_self p ps)
    exact relocate_list_untouched ps _ f (i + 1) (relocate_agent_frame hq hne)
      fun h => hql (List.mem_cons_of_mem _ h)

theorem relocate_list_wf :
    ∀ (l : List (Nat × Nat)) (c : City) (f : Nat → Nat) (i : Nat),
      c.Wf → (relocate_list c l f i).Wf
  | [], _, _, _, hwf => hwf
  | p :: ps, c, f, i, hwf => by
    simp only [relocate_list]
    exact relocate_list_wf ps _ f (i + 1) (relocate_agent_wf _ _ _ hwf)

theorem relocate_list_perm :
    ∀ (l : List (Nat × Nat)) (c : City) (f : Nat → Nat) (i : Nat),
      c.Wf → (∀ p ∈ l, p.1 < c.height ∧ p.2 < c.width) →
      (relocate_list c l f i).grid.flatten.Perm c.grid.flatten
  | [], _, _, _, _, _ => List.Perm.refl _
  | p :: ps, c, f, i, hwf, hl => by
    simp only [relocate_list]
    have hp := hl p (List.mem_cons_self p ps)
    have hfields := relocate_agent_fields c p.1 p.2 (f i)
    refine (relocate_list_perm ps _ f (i + 1) (relocate_agent_wf _ _ _ hwf) ?_).trans
      (relocate_agent_perm (f i) hwf hp.1 hp.2)
    intro q hq
    rw [hfields.2.1, hfields.1]
    exact hl q (List.mem_cons_of_mem _ hq)

theorem relocate_list_moved :
    ∀ (l : List (Nat × Nat)) (c : City) (f : Nat → Nat) (i : Nat),
      c.Wf → c.vacant_cells ≠ [] → (∀ p ∈ l, p.1 < c.height ∧ p.2 < c.width) →
      (relocate_list c l f i).moved_agents = c.moved_agents ∪ l.toFinset
  | [], c, _, _, _, _, _ => by simp [relocate_list]
  | p :: ps, c, f, i, hwf, hvac, hl => by
    simp only [relocate_list]
    have hp := hl p (List.mem_cons_self p ps)
    have hfields := relocate_agent_fields c p.1 p.2 (f i)
    have hmoves : (c.relocate_agent p.1 p.2 (f i)).moved_agents =
        insert p c.moved_agents := by
      obtain ⟨d, _, heq⟩ := relocate_agent_spec p.1 p.2 (f i) hvac
      rw [heq]
    have hb : ∀ q ∈ ps, q.1 < (c.relocate_agent p.1 p.2 (f i)).height ∧
        q.2 < (c.relocate_agent p.1 p.2 (f i)).width := by
      intro q hq
      rw [hfields.2.1, hfields.1]
      exact hl q (List.mem_cons_of_mem _ hq)
    rw [relocate_list_moved ps _ f (i + 1) (relocate_agent_wf _ _ _ hwf)
        (relocate_agent_vacant_ne_nil (f i) hwf hp.1 hp.2 hvac) hb,
      hmoves, List.toFinset_cons, Finset.insert_union, Finset.union_insert]

theorem relocate_list_append :
    ∀ (l₁ l₂ : List (Nat × Nat)) (c : City) (f : Nat → Nat) (i : Nat),
      relocate_list c (l₁ ++ l₂) f i =
        relocate_list (relocate_list c l₁ f i) l₂ f (i + l₁.length)
  | [], l₂, c, f, i => by simp [relocate_list]
  | p :: ps, l₂, c, f, i => by
    simp only [List.cons_append, relocate_list]
    have harith : i + 1 + ps.length = i + (p :: ps).length := by
      simp [List.length_cons]
      omega
    show relocate_list (c.relocate_agent p.1 p.2 (f i)) (ps ++ l₂) f (i + 1) = _
    rw [relocate_list_append ps l₂ _ f (i + 1), harith]

/-! ### The simulation loop -/

theorem run_sim_aux_spec :
    ∀ (fuel : Nat) (c : City) (F : Nat → Nat → Nat) (iter : Nat),
      (run_sim_aux fuel c F iter).2.2 ≤ fuel ∧
        (run_sim_aux fuel c F iter).2.1 ≠ SimState.Running ∧
        ((run_sim_aux fuel c F iter).2.1 = SimState.Converged →
          (run_sim_aux fuel c F iter).1.unhappy_agents = [])
  | 0, c, F, iter => by
    refine ⟨Nat.le_refl 0, ?_, ?_⟩ <;> simp [run_sim_aux]
  | fuel + 1, c, F, iter => by
    by_cases h : c.unhappy_agents = []
    · simp only [run_sim_aux, if_pos h]
      exact ⟨Nat.zero_le _, by simp, fun _ => h⟩
    · simp only [run_sim_aux, if_neg h]
      have ih := run_sim_aux_spec fuel (c.sweep (F iter)) F (iter + 1)
      exact ⟨Nat.succ_le_succ ih.1, ih.2.1, ih.2.2⟩

theorem run_simulation_of_converged {c : City} (h : c.unhappy_agents = [])
    (m : Nat) (F : Nat → Nat → Nat) :
    (run_simulation c m F).1 = c ∧ (run_simulation c m F).2.2 = 0 := by
  cases m with
  | zero => exact ⟨rfl, rfl⟩
  | succ m =>
    unfold run_simulation run_sim_aux
    rw [if_pos h]
    exact ⟨rfl, rfl⟩

theorem sweep_perm_wf {c : City} (f : Nat → Nat) (hwf : c.Wf) :
    (c.sweep f).grid.flatten.Perm c.grid.flatten ∧ (c.sweep f).Wf := by
  have hb : ∀ p ∈ c.unhappy_agents, p.1 < c.height ∧ p.2 < c.width := by
    intro p hp
    have := mem_unhappy_agents.mp hp
    exact ⟨this.1, this.2.1⟩
  exact ⟨relocate_list_perm _ _ _ _ hwf hb, relocate_list_wf _ _ _ _ hwf⟩

theorem run_sim_aux_perm :
    ∀ (fuel : Nat) (c : City) (F : Nat → Nat → Nat) (iter : Nat), c.Wf →
      (run_sim_aux fuel c F iter).1.grid.flatten.Perm c.grid.flatten ∧
        (run_sim_aux fuel c F iter).1.Wf
  | 0, c, F, iter, hwf => ⟨List.Perm.refl _, hwf⟩
  | fuel + 1, c, F, iter, hwf => by
    by_cases h : c.unhappy_agents = []
    · simp only [run_sim_aux, if_pos h]
      exact ⟨List.Perm.refl _, hwf⟩
    · simp only [run_sim_aux, if_neg h]
      have hs := sweep_perm_wf (F iter) hwf
      have ih := run_sim_aux_perm fuel (c.sweep (F iter)) F (iter + 1) hs.2
      exact ⟨ih.1.trans hs.1, ih.2⟩

end Schelling

namespace Schelling

/-! ### Grid initialisation -/

theorem fillCells_spec :
    ∀ (n : Nat) (l : List Cell), n ≤ l.length →
      ∃ row rest, fillCells n l = some (row, rest) ∧ row.length = n ∧
        rest.length = l.length - n ∧
        ∀ v : Cell, row.count v + rest.count v = l.count v
  | 0, l, _ =>
    ⟨[], l, rfl, rfl, (Nat.sub_zero l.length).symm, fun v => by simp⟩
  | n + 1, l, h => by
    have hne : l ≠ [] := by
      intro he
      rw [he] at h
      simp at h
    obtain ⟨row, rest, h1, h2, h3, h4⟩ :=
      fillCells_spec n l.dropLast (by rw [List.length_dropLast]; omega)
    refine ⟨l.getLast hne :: row, rest, ?_, by simp [h2], ?_, ?_⟩
    · simp only [fillCells]
      rw [List.getLast?_eq_getLast_of_ne_nil hne, h1]
    · rw [h3, List.length_dropLast]
      omega
    · intro v
      have hsplit : l = l.dropLast ++ [l.getLast hne] :=
        (List.dropLast_append_getLast hne).symm
      conv_rhs => rw [hsplit]
      have h5 := h4 v
      rw [List.count_append]
      simp only [List.count_cons, List.count_nil]
      omega

theorem fillRows_spec :
    ∀ (h w : Nat) (l : List Cell), h * w ≤ l.length →
      ∃ rows rest, fillRows h w l = some (rows, rest) ∧ rows.length = h ∧
        (∀ row ∈ rows, row.length = w) ∧ rest.length = l.length - h * w ∧
        ∀ v : Cell, rows.flatten.count v + rest.count v = l.count v
  | 0, w, l, _ =>
    ⟨[], l, rfl, rfl, by simp, by simp, fun v => by simp⟩
  | h + 1, w, l, hle => by
    have e1 : (h + 1) * w = h * w + w := by ring
    obtain ⟨row, rest, h1, h2, h3, h4⟩ := fillCells_spec w l (by omega)
    obtain ⟨rows, rest2, g1, g2, g3, g4, g5⟩ := fillRows_spec h w rest (by omega)
    refine ⟨row :: rows, rest2, ?_, by simp [g2], ?_, ?_, ?_⟩
    · simp only [fillRows, h1, g1]
    · intro r hr
      rcases List.mem_cons.mp hr with rfl | hr
      · exact h2
      · exact g3 r hr
    · rw [g4, h3]
      omega
    · intro v
      rw [List.flatten_cons, List.count_append]
      have g6 := g5 v
      have h6 := h4 v
      omega

theorem floor_mul_le (n : Nat) {q : ℚ} (h1 : q ≤ 1) : (⌊(n : ℚ) * q⌋).toNat ≤ n := by
  rw [Int.toNat_le]
  calc ⌊(n : ℚ) * q⌋ ≤ ⌊(n : ℚ)⌋ :=
        Int.floor_le_floor (mul_le_of_le_one_right (by positivity) h1)
    _ = (n : ℤ) := Int.floor_natCast n

end Schelling

namespace Schelling

/-- Claim C3: for every grid, in-bounds coordinate and threshold, `is_happy` is true
on an empty cell; on an occupied cell with zero occupied neighbours it is true; and
otherwise it is true exactly when `similar / occupiedNeighbors ≥ threshold`, where
`similar` counts neighbour cells holding an agent of the same category,
`occupiedNeighbors` counts neighbour cells holding any agent, and the comparison is
inclusive. -/
theorem claim_C3 (c : City) (x y : Nat) (_hx : x < c.height) (_hy : y < c.width) :
    (getCell c.grid x y = none → c.is_happy x y = true) ∧
      ∀ a : AgentType, getCell c.grid x y = some a →
        (((c.get_neighbors x y).countP Option.isSome = 0 → c.is_happy x y = true) ∧
          (0 < (c.get_neighbors x y).countP Option.isSome →
            (c.is_happy x y = true ↔
              c.discrimination_rate ≤
                ((c.get_neighbors x y).count (some a) : ℚ) /
                  ((c.get_neighbors x y).countP Option.isSome : ℚ)))) := by
  constructor
  · intro h
    unfold City.is_happy
    rw [h]
  · intro a ha
    unfold City.is_happy
    rw [ha]
    simp only [List.count, List.countP_eq_length_filter]
    by_cases ht : ((c.get_neighbors x y).filter fun n => n.isSome).length = 0
    · rw [if_pos ht]
      refine ⟨fun _ => rfl, fun h0 => ?_⟩
      rw [ht] at h0
      exact absurd h0 (lt_irrefl 0)
    · rw [if_neg ht]
      exact ⟨fun h0 => absurd h0 ht, fun _ => decide_eq_true_iff⟩

/-- Claim C6: on a grid with no vacant cell, relocating an occupied cell is a no-op:
the whole city, in particular its grid and its moved set, is unchanged. -/
theorem claim_C6 (c : City) (x y k : Nat) (a : AgentType)
    (_ha : getCell c.grid x y = some a) (hnov : c.vacant_cells = []) :
    c.relocate_agent x y k = c ∧
      (c.relocate_agent x y k).grid = c.grid ∧
      (c.relocate_agent x y k).moved_agents = c.moved_agents := by
  have h := relocate_agent_of_nil (x := x) (y := y) (k := k) hnov
  exact ⟨h, by rw [h], by rw [h]⟩

/-- Claim C10: relocating an in-bounds cell that is already empty, while some empty
cell exists, leaves the grid unchanged but still inserts the source coordinate into
the moved set. -/
theorem claim_C10 (c : City) (x y k : Nat) (hwf : c.Wf)
    (hx : x < c.height) (hy : y < c.width)
    (hempty : getCell c.grid x y = none) (hv : c.vacant_cells ≠ []) :
    (c.relocate_agent x y k).grid = c.grid ∧
      (c.relocate_agent x y k).moved_agents = insert (x, y) c.moved_agents := by
  obtain ⟨d, hd, heq⟩ := relocate_agent_spec x y k hv
  obtain ⟨hd1, hd2, hdnone⟩ := mem_vacant_cells.mp hd
  obtain ⟨rowd, hrowd, hrowdlen⟩ := hwf.row hd1
  obtain ⟨rowx, hrowx, hrowxlen⟩ := hwf.row hx
  rw [heq]
  refine ⟨?_, rfl⟩
  simp only
  have e1 : setCell c.grid d.1 d.2 (getCell c.grid x y) = c.grid := by
    refine setCell_self hrowd (by rw [hrowdlen]; exact hd2) ?_
    rw [hempty]
    exact hdnone
  rw [e1]
  exact setCell_self hrowx (by rw [hrowxlen]; exact hy) hempty

/-- Claim C7: the segregation level is the ratio of happy occupied cells to occupied
cells, always lies in `[0, 1]`, equals `1` when every occupied cell is happy, and is
defined as `1` (not an error) when the grid has no occupied cell. -/
theorem claim_C7 (c : City) :
    (0 < c.occupiedCoords.length →
        c.calculate_segregation =
          (c.happyCoords.length : ℚ) / (c.occupiedCoords.length : ℚ)) ∧
      0 ≤ c.calculate_segregation ∧ c.calculate_segregation ≤ 1 ∧
      ((∀ p ∈ c.occupiedCoords, c.is_happy p.1 p.2 = true) →
        c.calculate_segregation = 1) ∧
      (c.occupiedCoords.length = 0 → c.calculate_segregation = 1) := by
  unfold City.calculate_segregation
  by_cases h : 0 < c.occupiedCoords.length
  · rw [if_pos h]
    have hle : c.happyCoords.length ≤ c.occupiedCoords.length :=
      List.length_filter_le _ _
    have hpos : (0 : ℚ) < (c.occupiedCoords.length : ℚ) := by exact_mod_cast h
    refine ⟨fun _ => rfl, by positivity, ?_, ?_, fun h0 => by omega⟩
    · rw [div_le_one hpos]
      exact_mod_cast hle
    · intro hall
      have he : c.happyCoords = c.occupiedCoords :=
        List.filter_eq_self.mpr fun p hp => hall p hp
      rw [he, div_self (ne_of_gt hpos)]
  · rw [if_neg h]
    exact ⟨fun hc => absurd hc h, by norm_num, by norm_num, fun _ => rfl, fun _ => rfl⟩

/-- Claim C2: within one iteration the set of coordinates classified unhappy is
exactly determined by the pre-iteration grid (occupied and not happy in that grid),
and the sweep relocates precisely the members of that pre-iteration snapshot: however
far the sweep has progressed, the remaining relocations are the remaining suffix of
the snapshot, not a reclassification of the mutated grid. -/
theorem claim_C2 (c : City) (f : Nat → Nat) :
    (∀ p : Nat × Nat, p ∈ c.unhappy_agents ↔
        p.1 < c.height ∧ p.2 < c.width ∧
          (getCell c.grid p.1 p.2).isSome = true ∧ c.is_happy p.1 p.2 = false) ∧
      ∀ i : Nat, i ≤ c.unhappy_agents.length →
        c.sweep f = relocate_list (c.sweepUpTo f i) (c.unhappy_agents.drop i) f i := by
  refine ⟨fun p => mem_unhappy_agents, ?_⟩
  intro i hi
  unfold City.sweep City.sweepUpTo
  conv_lhs => rw [← List.take_append_drop i c.unhappy_agents]
  rw [relocate_list_append]
  have hlen : 0 + (c.unhappy_agents.take i).length = i := by
    rw [List.length_take]
    omega
  rw [hlen]

/-- Claim C9: every coordinate of the unhappy snapshot is still occupied by its
original agent at the moment the sweep relocates it: the relocations performed
earlier in the same sweep have not touched it. -/
theorem claim_C9 (c : City) (f : Nat → Nat) (i : Nat)
    (hi : i < c.unhappy_agents.length) :
    getCell (c.sweepUpTo f i).grid (c.unhappy_agents.get ⟨i, hi⟩).1
        (c.unhappy_agents.get ⟨i, hi⟩).2 =
      getCell c.grid (c.unhappy_agents.get ⟨i, hi⟩).1 (c.unhappy_agents.get ⟨i, hi⟩).2 ∧
      (getCell c.grid (c.unhappy_agents.get ⟨i, hi⟩).1
          (c.unhappy_agents.get ⟨i, hi⟩).2).isSome = true := by
  have hmem : c.unhappy_agents.get ⟨i, hi⟩ ∈ c.unhappy_agents := List.get_mem _ _ _
  have hocc := (mem_unhappy_agents.mp hmem).2.2.1
  obtain ⟨a, ha⟩ := Option.isSome_iff_exists.mp hocc
  have hnotin : c.unhappy_agents.get ⟨i, hi⟩ ∉ c.unhappy_agents.take i := by
    have hnd : (c.unhappy_agents.take i ++ c.unhappy_agents.drop i).Nodup := by
      rw [List.take_append_drop]
      exact nodup_unhappy_agents c
    have hdisj := (List.nodup_append.mp hnd).2.2
    have hindrop : c.unhappy_agents.get ⟨i, hi⟩ ∈ c.unhappy_agents.drop i := by
      rw [List.drop_eq_getElem_cons hi]
      exact List.mem_cons_self _ _
    exact fun hin => hdisj hin hindrop
  refine ⟨?_, hocc⟩
  rw [ha]
  unfold City.sweepUpTo
  exact relocate_list_untouched _ _ _ _ ha hnotin

/-- Claim C8: the simulation performs at most `max_iterations` sweeps, always ends in
a terminal state (never `Running`), and once converged it stays converged: re-running
from the final city performs no further sweep and leaves the city unchanged. -/
theorem claim_C8 (c : City) (max_iterations : Nat) (F : Nat → Nat → Nat) :
    (run_simulation c max_iterations F).2.2 ≤ max_iterations ∧
      (run_simulation c max_iterations F).2.1 ≠ SimState.Running ∧
      ((run_simulation c max_iterations F).2.1 = SimState.Converged →
        (run_simulation c max_iterations F).1.unhappy_agents = [] ∧
        ∀ (m : Nat) (F2 : Nat → Nat → Nat),
          (run_simulation (run_simulation c max_iterations F).1 m F2).1 =
              (run_simulation c max_iterations F).1 ∧
            (run_simulation (run_simulation c max_iterations F).1 m F2).2.2 = 0) := by
  have h := run_sim_aux_spec max_iterations c F 0
  refine ⟨h.1, h.2.1, fun hc => ?_⟩
  have hempty := h.2.2 hc
  exact ⟨hempty, fun m F2 => run_simulation_of_converged hempty m F2⟩

end Schelling

namespace Schelling

/-- Claim C5: relocating an occupied in-bounds cell when an empty cell exists
vacates the source, moves the agent into exactly one previously-empty cell, leaves
every other cell unchanged, and preserves the multiset of cells (hence the occupied
count and the category distribution); moreover a whole simulation run preserves the
multiset of cells of any well-formed city. -/
theorem claim_C5 (c : City) (x y k : Nat) (a : AgentType) (hwf : c.Wf)
    (hx : x < c.height) (hy : y < c.width)
    (ha : getCell c.grid x y = some a) (hv : c.vacant_cells ≠ []) :
    getCell (c.relocate_agent x y k).grid x y = none ∧
      (∃ d ∈ c.vacant_cells, getCell c.grid d.1 d.2 = none ∧
        getCell (c.relocate_agent x y k).grid d.1 d.2 = some a ∧
        ∀ p : Nat × Nat, p ≠ (x, y) → p ≠ d →
          getCell (c.relocate_agent x y k).grid p.1 p.2 = getCell c.grid p.1 p.2) ∧
      (c.relocate_agent x y k).grid.flatten.Perm c.grid.flatten ∧
      ∀ c0 : City, c0.Wf → ∀ (n : Nat) (F : Nat → Nat → Nat),
        (run_simulation c0 n F).1.grid.flatten.Perm c0.grid.flatten := by
  obtain ⟨d, hd, heq⟩ := relocate_agent_spec x y k hv
  obtain ⟨hd1, hd2, hdnone⟩ := mem_vacant_cells.mp hd
  obtain ⟨rowd, hrowd, hrowdlen⟩ := hwf.row hd1
  have hdx : d ≠ (x, y) := by
    intro hcon
    rw [hcon] at hdnone
    dsimp only at hdnone
    rw [ha] at hdnone
    exact Option.noConfusion hdnone
  refine ⟨relocate_agent_source_vacant k hwf hx hy hv, ⟨d, hd, hdnone, ?_, ?_⟩,
    relocate_agent_perm k hwf hx hy,
    fun c0 hwf0 n F => (run_sim_aux_perm n c0 F 0 hwf0).1⟩
  · rw [heq]
    simp only
    have e1 : getCell (setCell (setCell c.grid d.1 d.2 (getCell c.grid x y))
        x y none) d.1 d.2 =
        getCell (setCell c.grid d.1 d.2 (getCell c.grid x y)) d.1 d.2 :=
      getCell_setCell_ne hdx
    rw [e1, getCell_setCell_self hrowd (by rw [hrowdlen]; exact hd2), ha]
  · intro p hp1 hp2
    rw [heq]
    simp only
    rw [getCell_setCell_ne hp1, getCell_setCell_ne hp2]

/-- Counts of reds, blues and vacancies in the unshuffled agent list, together with
its total length. -/
theorem baseAgentList_counts (width height : Nat) (occ split : ℚ)
    (h1 : occ ≤ 1) (h3 : split ≤ 1) :
    (baseAgentList width height occ split).count (some AgentType.R) =
        (⌊(((⌊((width * height : Nat) : ℚ) * occ⌋).toNat : Nat) : ℚ) * split⌋).toNat ∧
      (baseAgentList width height occ split).count (some AgentType.B) =
        (⌊((width * height : Nat) : ℚ) * occ⌋).toNat -
          (⌊(((⌊((width * height : Nat) : ℚ) * occ⌋).toNat : Nat) : ℚ) * split⌋).toNat ∧
      (baseAgentList width height occ split).count none =
        width * height - (⌊((width * height : Nat) : ℚ) * occ⌋).toNat ∧
      (baseAgentList width height occ split).length = width * height := by
  have hocc_le := floor_mul_le (width * height) h1
  have hA_le := floor_mul_le ((⌊((width * height : Nat) : ℚ) * occ⌋).toNat) h3
  unfold baseAgentList
  simp only [List.count_append, List.count_replicate, List.length_append,
    List.length_replicate]
  refine ⟨?_, ?_, ?_, ?_⟩ <;>
    first
      | omega
      | simp [-Nat.cast_mul]

/-- Claim C4: for a valid configuration and any shuffle, the initialised grid holds
exactly `floor(floor(width*height*occupationRate)*categoryASplit)` red agents,
`occupiedCells − that` blue agents and `totalCells − occupiedCells` vacancies, over
`totalCells` placed cells, in a `height × width` grid. -/
theorem claim_C4 (width height : Nat) (occ split : ℚ)
    (_h0 : 0 ≤ occ) (h1 : occ ≤ 1) (_h2 : 0 ≤ split) (h3 : split ≤ 1)
    (shuffled : List Cell)
    (hp : shuffled.Perm (baseAgentList width height occ split)) :
    ∃ g : Grid, init_grid width height shuffled = some g ∧
      g.length = height ∧ (∀ row ∈ g, row.length = width) ∧
      countCell g (some AgentType.R) =
        (⌊(((⌊((width * height : Nat) : ℚ) * occ⌋).toNat : Nat) : ℚ) * split⌋).toNat ∧
      countCell g (some AgentType.B) =
        (⌊((width * height : Nat) : ℚ) * occ⌋).toNat -
          (⌊(((⌊((width * height : Nat) : ℚ) * occ⌋).toNat : Nat) : ℚ) * split⌋).toNat ∧
      countCell g none = width * height - (⌊((width * height : Nat) : ℚ) * occ⌋).toNat ∧
      g.flatten.length = width * height := by
  have hcounts := baseAgentList_counts width height occ split h1 h3
  have hlen : shuffled.length = width * height :=
    hp.length_eq.trans hcounts.2.2.2
  obtain ⟨rows, rest, e1, e2, e3, e4, e5⟩ :=
    fillRows_spec height width shuffled
      (by rw [hlen, Nat.mul_comm])
  have hrest : rest = [] := by
    have : rest.length = 0 := by rw [e4, hlen]; rw [Nat.mul_comm height width]; omega
    exact List.length_eq_zero.mp this
  have hcnt : ∀ v : Cell, rows.flatten.count v = shuffled.count v := by
    intro v
    have := e5 v
    rw [hrest] at this
    simpa using this
  have hflatlen : rows.flatten.length = width * height := by
    have hmap : rows.map List.length = List.replicate height width := by
      rw [List.eq_replicate_iff]
      exact ⟨by rw [List.length_map, e2], by
        intro b hb
        obtain ⟨row, hrow, rfl⟩ := List.mem_map.mp hb
        exact e3 row hrow⟩
    rw [List.length_flatten, hmap, List.sum_replicate, smul_eq_mul, Nat.mul_comm]
  refine ⟨rows, ?_, e2, e3, ?_, ?_, ?_, hflatlen⟩
  · unfold init_grid
    rw [e1]
    rfl
  · rw [show countCell rows (some AgentType.R) =
        rows.flatten.count (some AgentType.R) from rfl, hcnt,
      perm_count_cell hp, hcounts.1]
  · rw [show countCell rows (some AgentType.B) =
        rows.flatten.count (some AgentType.B) from rfl, hcnt,
      perm_count_cell hp, hcounts.2.1]
  · rw [show countCell rows none = rows.flatten.count none from rfl, hcnt,
      perm_count_cell hp, hcounts.2.2.1]

unseal Rat.mul Rat.inv in
/-- Claim C1 counterexample: in a 1×4 run of two iterations with two agents, each
agent is relocated twice and the moved set ends with four entries — among them
`(0, 2)`, a coordinate that was vacant at the start and hence is no agent's original
position.  The claim would predict exactly two entries, one per relocated agent,
keyed by their original coordinates `(0, 0)` and `(0, 1)`. -/
theorem claim_C1_counterexample :
    (run_simulation cityTwoMoves 2 picksTwoMoves).1.moved_agents =
        ({((0 : Nat), (0 : Nat)), (0, 1), (0, 2), (0, 3)} : Finset (Nat × Nat)) ∧
      (run_simulation cityTwoMoves 2 picksTwoMoves).1.moved_agents ≠
        ({((0 : Nat), (0 : Nat)), (0, 1)} : Finset (Nat × Nat)) ∧
      getCell cityTwoMoves.grid 0 2 = none ∧
      cityTwoMoves.grid.flatten.countP Option.isSome = 2 ∧
      (run_simulation cityTwoMoves 2 picksTwoMoves).1.moved_agents.card = 4 := by
  refine ⟨by decide, by decide, rfl, by decide, by decide⟩

/-- Claim C1 amended: `moved_agents` records the source coordinate of every
relocation event, not one entry per agent: a sweep performed with an empty cell
available adds exactly the coordinates of that sweep's unhappy snapshot, so an agent
relocated in two different sweeps contributes an entry for each coordinate it
occupied before each move; and each single relocation inserts its current source
coordinate. -/
theorem claim_C1_amended (c : City) (f : Nat → Nat) (hwf : c.Wf)
    (hv : c.vacant_cells ≠ []) :
    (c.sweep f).moved_agents = c.moved_agents ∪ c.unhappy_agents.toFinset ∧
      ∀ x y k : Nat, (c.relocate_agent x y k).moved_agents =
        insert (x, y) c.moved_agents := by
  constructor
  · unfold City.sweep
    refine relocate_list_moved _ _ _ _ hwf hv ?_
    intro p hp
    have h := mem_unhappy_agents.mp hp
    exact ⟨h.1, h.2.1⟩
  · intro x y k
    obtain ⟨d, _, heq⟩ := relocate_agent_spec x y k hv
    rw [heq]

end Schelling

namespace Schelling

theorem claim_C3_witness : citySmall.is_happy 0 2 = true :=
  (claim_C3 citySmall 0 2 (by decide) (by decide)).1 rfl

theorem claim_C6_witness : cityFull.relocate_agent 0 0 0 = cityFull :=
  (claim_C6 cityFull 0 0 0 AgentType.R rfl (by decide)).1

theorem claim_C10_witness :
    (citySmall.relocate_agent 0 2 0).grid = citySmall.grid ∧
      (citySmall.relocate_agent 0 2 0).moved_agents =
        insert (0, 2) citySmall.moved_agents :=
  claim_C10 citySmall 0 2 0 (by decide) (by decide) (by decide) rfl (by decide)

theorem claim_C7_witness :
    citySmall.calculate_segregation =
      (citySmall.happyCoords.length : ℚ) / (citySmall.occupiedCoords.length : ℚ) :=
  (claim_C7 citySmall).1 (by decide)

unseal Rat.mul Rat.inv in
theorem claim_C2_witness :
    citySmall.sweep (fun _ => 0) =
      relocate_list (citySmall.sweepUpTo (fun _ => 0) 1)
        (citySmall.unhappy_agents.drop 1) (fun _ => 0) 1 :=
  (claim_C2 citySmall (fun _ => 0)).2 1 (by decide)

unseal Rat.mul Rat.inv in
theorem claim_C9_witness :
    getCell (citySmall.sweepUpTo (fun _ => 0) 1).grid
        (citySmall.unhappy_agents.get ⟨1, by decide⟩).1
        (citySmall.unhappy_agents.get ⟨1, by decide⟩).2 =
      getCell citySmall.grid (citySmall.unhappy_agents.get ⟨1, by decide⟩).1
        (citySmall.unhappy_agents.get ⟨1, by decide⟩).2 :=
  (claim_C9 citySmall (fun _ => 0) 1 (by decide)).1

unseal Rat.mul Rat.inv in
theorem claim_C8_witness :
    (run_simulation cityFull 3 (fun _ _ => 0)).1.unhappy_agents = [] :=
  ((claim_C8 cityFull 3 (fun _ _ => 0)).2.2 (by decide)).1

theorem claim_C5_witness :
    getCell (citySmall.relocate_agent 0 0 0).grid 0 0 = none :=
  (claim_C5 citySmall 0 0 0 AgentType.R (by decide) (by decide) (by decide) rfl
    (by decide)).1

unseal Rat.mul Rat.inv in
theorem claim_C4_witness :
    ∃ g : Grid, init_grid 5 5 (baseAgentList 5 5 (4/5) (1/2)) = some g ∧
      countCell g (some AgentType.R) = 10 ∧ countCell g (some AgentType.B) = 10 ∧
      countCell g none = 5 ∧ g.flatten.length = 25 := by
  obtain ⟨g, e1, _, _, e4, e5, e6, e7⟩ :=
    claim_C4 5 5 (4/5) (1/2) (by norm_num) (by norm_num) (by norm_num) (by norm_num)
      (baseAgentList 5 5 (4/5) (1/2)) (List.Perm.refl _)
  refine ⟨g, e1, ?_, ?_, ?_, ?_⟩
  · rw [e4]; decide
  · rw [e5]; decide
  · rw [e6]; decide
  · rw [e7]

theorem claim_C1_witness :
    (citySmall.sweep (fun _ => 0)).moved_agents =
      citySmall.moved_agents ∪ citySmall.unhappy_agents.toFinset :=
  (claim_C1_amended citySmall (fun _ => 0) (by decide) (by decide)).1

end Schelling
